import Mathlib

/-!
Verification of the history-tree / info-set indexing core of this
repository, together with the `PyPolicy` dispatch layer.

The implementation files of the history-tree core (`history_tree.h/.cc`)
are not part of the available sources; only their test file
(`open_spiel/algorithms/history_tree_test.cc`) is.  Following the spec,
the core is therefore modelled here directly from the specification text
(each such definition carries a doc comment starting with
`Modelled from the spec:`).  The `PyPolicy` layer is embedded from
`open_spiel/python/pybind11/python_policy.cc`, which is available.

Probabilities (C++ `double`s that are only ever multiplied by the
algorithm) are embedded as exact integer fractions (`Frac`) with an
explicit rational interpretation `Frac.val`, so that every traversal is
kernel-computable and value claims are stated over `ℚ`.
-/

/-- Exact fraction used to embed the probability values (C++ doubles)
that the algorithm multiplies together.  Not normalized; its rational
value is given by `Frac.val`. -/
structure Frac where
  num : Int
  den : Int
deriving DecidableEq, Repr

/-- Multiplication of probability values, componentwise on fractions. -/
def Frac.mul (p q : Frac) : Frac := ⟨p.num * q.num, p.den * q.den⟩

/-- The probability value 1.0. -/
def Frac.one : Frac := ⟨1, 1⟩

/-- The probability value 0.0. -/
def Frac.zero : Frac := ⟨0, 1⟩

/-- The rational value of an embedded probability. -/
def Frac.val (p : Frac) : ℚ := (p.num : ℚ) / (p.den : ℚ)

theorem Frac.mul_one (p : Frac) : p.mul Frac.one = p := by
  simp [Frac.mul, Frac.one]

theorem Frac.one_mul (p : Frac) : Frac.one.mul p = p := by
  simp [Frac.mul, Frac.one]

theorem Frac.mul_assoc (p q r : Frac) : (p.mul q).mul r = p.mul (q.mul r) := by
  simp [Frac.mul, Int.mul_assoc]

/-- Node classification, per the spec (§3): one of Decision, Chance,
Terminal, derived once at construction from the state. -/
inductive StateType where
  | decision
  | chance
  | terminal
deriving DecidableEq, Repr

/-- Modelled from the spec (§6): the Game/State capability set consumed
(not implemented) by the core, as a record of functions over a state
type `S`.  `chanceOutcomes` and the two information-state forms follow
the external-interface contract of §6. -/
structure GameIF (S : Type) where
  isTerminal : S → Bool
  isChanceNode : S → Bool
  currentPlayer : S → Int
  legalActions : S → List Int
  chanceOutcomes : S → List (Int × Frac)
  child : S → Int → S
  informationStateStringFor : S → Int → String
  informationStateString : S → String
  historyString : S → String

/-- Modelled from the spec (§3): the fixed sentinel info-state string
stored at Chance nodes.  The spec fixes no concrete value, only that it
is a fixed string distinct from the Terminal sentinel. -/
def kChanceNodeInfostateString : String := "Chance node"

/-- Modelled from the spec (§3): the fixed sentinel info-state string
stored at Terminal nodes. -/
def kTerminalNodeInfostateString : String := "Terminal node"

/-- Modelled from the spec (§4.1): per-node classification, derived from
the state's own `isTerminal` / `isChanceNode` reports. -/
def GameIF.stateTypeOf {S : Type} (g : GameIF S) (s : S) : StateType :=
  if g.isTerminal s then .terminal
  else if g.isChanceNode s then .chance
  else .decision

/-- Modelled from the spec (§4.1, table): the info-state string stored in
a node: the Terminal or Chance sentinel for those kinds; for a decision
node of the responder, the state's information-state string computed for
the responder; for a decision node of any other actor, the state's
generic information-state string (no player argument). -/
def infoStateOf {S : Type} (g : GameIF S) (responder : Int) (s : S) : String :=
  match g.stateTypeOf s with
  | .terminal => kTerminalNodeInfostateString
  | .chance => kChanceNodeInfostateString
  | .decision =>
    if g.currentPlayer s = responder then g.informationStateStringFor s responder
    else g.informationStateString s

mutual
/-- Modelled from the spec (§3): a `HistoryNode` owns its history key,
its state snapshot, its classification, its info-state string, the
ordered list of child actions, and its owned children. -/
inductive HNode (S : Type) where
  | mk (history : String) (state : S) (nodeType : StateType) (infoState : String)
      (childActions : List Int) (children : HChildren S)
/-- The ordered action-to-child mapping owned by a `HNode`. -/
inductive HChildren (S : Type) where
  | nil : HChildren S
  | cons (action : Int) (node : HNode S) (rest : HChildren S) : HChildren S
end

/-- The history key stored in a node. -/
def HNode.history {S : Type} : HNode S → String
  | .mk h _ _ _ _ _ => h

/-- The owned state snapshot of a node. -/
def HNode.state {S : Type} : HNode S → S
  | .mk _ s _ _ _ _ => s

/-- The classification of a node. -/
def HNode.nodeType {S : Type} : HNode S → StateType
  | .mk _ _ t _ _ _ => t

/-- The info-state string stored in a node. -/
def HNode.infoState {S : Type} : HNode S → String
  | .mk _ _ _ i _ _ => i

/-- The ordered child-action list stored in a node. -/
def HNode.childActions {S : Type} : HNode S → List Int
  | .mk _ _ _ _ ca _ => ca

/-- The owned children of a node. -/
def HNode.children {S : Type} : HNode S → HChildren S
  | .mk _ _ _ _ _ ch => ch

/-- The children as an ordered association list of (action, child). -/
def HChildren.toList {S : Type} : HChildren S → List (Int × HNode S)
  | .nil => []
  | .cons a n rest => (a, n) :: rest.toList

/-- Modelled from the spec (§4.1): children are expanded for every
element of `legalActions()`, preserving order; the child state is
obtained by applying that action.  `f` is the recursive node builder
applied to each successor. -/
def buildChildren {S : Type} (g : GameIF S) (f : S → Option (HNode S)) (s : S) :
    List Int → Option (HChildren S)
  | [] => some .nil
  | a :: rest => do
    let c ← f (g.child s a)
    let cs ← buildChildren g f s rest
    pure (.cons a c cs)

/-- Modelled from the spec (§4.1): recursive construction of the tree of
`HistoryNode`s from a state.  Classification and info-state are derived
once from the state; a Terminal node gets no children; a non-terminal
state reporting zero legal actions is a construction invariant violation
(the fatal error is embedded as `none`).  The fuel argument bounds the
recursion depth (the spec's games are finite, with recursion depth equal
to the maximum game length). -/
def buildNode {S : Type} (g : GameIF S) (responder : Int) :
    Nat → S → Option (HNode S)
  | 0, _ => none
  | fuel + 1, s =>
    let t := g.stateTypeOf s
    if t = .terminal then
      some (.mk (g.historyString s) s t (infoStateOf g responder s) [] .nil)
    else
      let acts := g.legalActions s
      if acts.isEmpty then none
      else do
        let ch ← buildChildren g (fun s2 => buildNode g responder fuel s2) s acts
        pure (.mk (g.historyString s) s t (infoStateOf g responder s) acts ch)

/-- Modelled from the spec (§3): a `HistoryTree` owns the root node (all
other nodes are transitively owned through the parent-child chain). -/
structure HistoryTree (S : Type) where
  root : HNode S

/-- Modelled from the spec (§4.1): `build(initialState, responder)`
returns a tree rooted at the initial state containing one node per
reachable history, or fails fatally (`none`). -/
def HistoryTree.build {S : Type} (g : GameIF S) (responder : Int) (fuel : Nat)
    (s0 : S) : Option (HistoryTree S) :=
  (buildNode g responder fuel s0).map (fun n => ⟨n⟩)

mutual
/-- All nodes of the subtree rooted at a node, in depth-first preorder. -/
def HNode.allNodes {S : Type} : HNode S → List (HNode S)
  | .mk h s t i ca ch => .mk h s t i ca ch :: HChildren.allNodesC ch
/-- All nodes of the subtrees of a children list, in order. -/
def HChildren.allNodesC {S : Type} : HChildren S → List (HNode S)
  | .nil => []
  | .cons _ n rest => n.allNodes ++ HChildren.allNodesC rest
end

/-- Modelled from the spec (§4.2): `historiesView()`, the sequence of all
history-string keys in the tree. -/
def HistoryTree.getHistories {S : Type} (t : HistoryTree S) : List String :=
  t.root.allNodes.map HNode.history

/-- Modelled from the spec (§4.2): `numHistories()`, the count of all
nodes. -/
def HistoryTree.numHistories {S : Type} (t : HistoryTree S) : Nat :=
  t.root.allNodes.length

/-- Modelled from the spec (§4.2): `byHistory(history)`, the node for an
exact history string, or a "not found" signal (`none`) if absent. -/
def HistoryTree.getByHistory {S : Type} (t : HistoryTree S) (h : String) :
    Option (HNode S) :=
  t.root.allNodes.find? (fun n => n.history == h)

/-- Modelled from the spec (§6): the Policy capability consumed by the
indexer: an action-probability distribution for a given state. -/
def PolicyFn (S : Type) : Type := S → List (Int × Frac)

/-- Modelled from the spec (§4.3, edge cases): the probability a
distribution assigns to an action; an omitted action is treated as
probability 0. -/
def lookupProb (l : List (Int × Frac)) (a : Int) : Frac :=
  match l.find? (fun p => p.1 == a) with
  | some p => p.2
  | none => Frac.zero

mutual
/-- Modelled from the spec (§4.3): the recursive info-set pass over a
subtree.  At a responder decision node, `(node, reach)` is recorded
under the node's info-state key and every child is recursed into with an
unchanged reach probability; at another player's decision node each
child is recursed into with the reach multiplied by that player's policy
probability for the action; at a chance node with the game-reported
outcome probability; a terminal node records nothing and stops. -/
def getSubgameInfoSets {S : Type} (g : GameIF S) (responder : Int)
    (pol : PolicyFn S) : HNode S → Frac → List (String × HNode S × Frac)
  | .mk h s t i ca ch, q =>
    match t with
    | .terminal => []
    | .chance =>
      infoSetsChildren g responder pol (fun a => lookupProb (g.chanceOutcomes s) a) ch q
    | .decision =>
      if g.currentPlayer s = responder then
        (i, .mk h s t i ca ch, q) ::
          infoSetsChildren g responder pol (fun _ => Frac.one) ch q
      else
        infoSetsChildren g responder pol (fun a => lookupProb (pol s) a) ch q
/-- The children part of the info-set pass: each child is recursed into
with the parent reach probability multiplied by the child's weight. -/
def infoSetsChildren {S : Type} (g : GameIF S) (responder : Int)
    (pol : PolicyFn S) (w : Int → Frac) :
    HChildren S → Frac → List (String × HNode S × Frac)
  | .nil, _ => []
  | .cons a n rest, q =>
    getSubgameInfoSets g responder pol n (q.mul (w a)) ++
      infoSetsChildren g responder pol w rest q
end

/-- Modelled from the spec (§4.3): `GetAllInfoSets` / `computeInfoSets`:
a single recursive pass starting at the root with reach probability 1.0;
the produced InfoSet map is represented as the ordered list of recorded
`(key, node, reach)` entries. -/
def getAllInfoSets {S : Type} (g : GameIF S) (responder : Int)
    (pol : PolicyFn S) (t : HistoryTree S) : List (String × HNode S × Frac) :=
  getSubgameInfoSets g responder pol t.root Frac.one

/-- The entry list the InfoSet map associates with a key. -/
def infoSetEntries {S : Type} (entries : List (String × HNode S × Frac))
    (key : String) : List (HNode S × Frac) :=
  (entries.filter (fun e => e.1 == key)).map (fun e => e.2)

/-- The number of entries the InfoSet map holds under a key. -/
def countForKey {S : Type} (entries : List (String × HNode S × Frac))
    (key : String) : Nat :=
  (entries.filter (fun e => e.1 == key)).length

/-- The keys under which the InfoSet map holds at least one entry. -/
def infoSetKeys {S : Type} (entries : List (String × HNode S × Frac)) :
    List String :=
  entries.map (fun e => e.1)

/-- The recorded reach probability of the unique entry whose node has a
given history key. -/
def findProbByHistory {S : Type} (entries : List (String × HNode S × Frac))
    (h : String) : Option Frac :=
  (entries.find? (fun e => e.2.1.history == h)).map (fun e => e.2.2)

/-- The one-step reach-probability weight from a node to the child
reached by an action, per the spec (§4.3): 1 at a responder decision
node, the policy probability at another player's decision node, the
game-reported outcome probability at a chance node. -/
def stepWeight {S : Type} (g : GameIF S) (responder : Int) (pol : PolicyFn S)
    (n : HNode S) (a : Int) : Frac :=
  match n.nodeType with
  | .terminal => Frac.zero
  | .chance => lookupProb (g.chanceOutcomes n.state) a
  | .decision =>
    if g.currentPlayer n.state = responder then Frac.one
    else lookupProb (pol n.state) a

/-- `Reaches g responder pol n d w`: the info-set pass started at `n`
reaches descendant `d` with accumulated counterfactual reach weight `w`:
the pass starts with weight 1, multiplies `stepWeight` at each step, and
never descends below a terminal node. -/
inductive Reaches {S : Type} (g : GameIF S) (responder : Int) (pol : PolicyFn S) :
    HNode S → HNode S → Frac → Prop where
  | refl (n : HNode S) : Reaches g responder pol n n Frac.one
  | step {n d : HNode S} {a : Int} {c : HNode S} {w : Frac}
      (hnt : n.nodeType ≠ .terminal) (hc : (a, c) ∈ n.children.toList)
      (h : Reaches g responder pol c d w) :
      Reaches g responder pol n d ((stepWeight g responder pol n a).mul w)

/-- The Kuhn state is the list of actions taken from the root: first the
two dealt cards, then the betting actions (0 = pass, 1 = bet). -/
def KuhnS : Type := List Int

/-- The three-card deck of the reference game. -/
def kuhnDeck : List Int := [0, 1, 2]

/-- The cards dealt so far (the first up-to-two actions). -/
def kuhnCards (h : List Int) : List Int := h.take 2

/-- The betting actions taken so far (everything after the deal). -/
def kuhnBets (h : List Int) : List Int := h.drop 2

/-- Whether the state is still in the dealing phase. -/
def kuhnIsChance (h : List Int) : Bool := h.length < 2

/-- Whether the state is terminal: the betting sequence has ended
(three betting actions, or two of them unless they are pass-then-bet,
which reopens the first player's decision). -/
def kuhnIsTerminal (h : List Int) : Bool :=
  let b := kuhnBets h
  b.length == 3 || (b.length == 2 && b != [0, 1])

/-- The player to act: the chance player (-1) while dealing, else the
betting player alternates 0, 1, 0. -/
def kuhnCurrentPlayer (h : List Int) : Int :=
  if kuhnIsChance h then -1 else ((kuhnBets h).length % 2 : Nat)

/-- The cards not dealt yet, in increasing order. -/
def kuhnRemaining (h : List Int) : List Int :=
  kuhnDeck.filter (fun c => !(kuhnCards h).contains c)

/-- The ordered legal actions: an undealt card while dealing; pass (0)
or bet (1) while betting; none at a terminal state. -/
def kuhnLegalActions (h : List Int) : List Int :=
  if kuhnIsChance h then kuhnRemaining h
  else if kuhnIsTerminal h then []
  else [0, 1]

/-- The chance outcomes: each undealt card with equal probability. -/
def kuhnChanceOutcomes (h : List Int) : List (Int × Frac) :=
  (kuhnRemaining h).map (fun c => (c, ⟨1, ((kuhnRemaining h).length : Int)⟩))

/-- The information-state string a player observes: their own card (once
dealt) followed by the betting sequence rendered as "p"/"b". -/
def kuhnInformationStateStringFor (h : List Int) (p : Int) : String :=
  (match (kuhnCards h).get? p.toNat with
    | some c => toString c
    | none => "") ++
    String.join ((kuhnBets h).map (fun b => if b == 0 then "p" else "b"))

/-- Modelled from the spec: the small poker-like reference game
(`kuhn_poker`, a 3-card two-player betting game) used by the regression
properties; its game implementation is not among the available sources.
Two cards are dealt by chance (1/3 then 1/2 each), then the players bet
pass/bet with at most three betting actions; histories are the
comma-joined action lists; information states are the observing player's
card followed by the betting sequence. -/
def kuhnG : GameIF (List Int) where
  isTerminal := kuhnIsTerminal
  isChanceNode := kuhnIsChance
  currentPlayer := kuhnCurrentPlayer
  legalActions := kuhnLegalActions
  chanceOutcomes := kuhnChanceOutcomes
  child := fun h a => h ++ [a]
  informationStateStringFor := kuhnInformationStateStringFor
  informationStateString := fun h => kuhnInformationStateStringFor h (kuhnCurrentPlayer h)
  historyString := fun h => String.intercalate ", " (h.map (fun a => toString a))

/-- Enough fuel to build the full Kuhn tree (maximum game length 5). -/
def kuhnFuel : Nat := 8

/-- A placeholder tree used only as the `Option.getD` default below. -/
def emptyTree : HistoryTree (List Int) :=
  ⟨.mk "" [] .terminal kTerminalNodeInfostateString [] .nil⟩

/-- The Kuhn history tree built for responder 0. -/
def kuhnTree : HistoryTree (List Int) :=
  (HistoryTree.build kuhnG 0 kuhnFuel []).getD emptyTree

/-- Modelled from the spec: the uniform policy (`GetUniformPolicy`):
every legal action gets equal probability. -/
def uniformPolicyFn {S : Type} (g : GameIF S) : PolicyFn S :=
  fun s => (g.legalActions s).map
    (fun a => (a, ⟨1, ((g.legalActions s).length : Int)⟩))

/-- Modelled from the spec: the policy that always takes the first
listed action (`GetFirstActionPolicy`): probability 1 on the first legal
action, 0 on the others. -/
def firstActionPolicyFn {S : Type} (g : GameIF S) : PolicyFn S :=
  fun s =>
    match g.legalActions s with
    | [] => []
    | a :: rest => (a, Frac.one) :: rest.map (fun b => (b, Frac.zero))

/-- The InfoSet entries for Kuhn, responder 0, uniform opponent policy. -/
def kuhnUniformEntries : List (String × HNode (List Int) × Frac) :=
  getAllInfoSets kuhnG 0 (uniformPolicyFn kuhnG) kuhnTree

/-- The InfoSet entries for Kuhn, responder 0, first-action opponent
policy. -/
def kuhnFirstActionEntries : List (String × HNode (List Int) × Frac) :=
  getAllInfoSets kuhnG 0 (firstActionPolicyFn kuhnG) kuhnTree

/-- A node is a member of its own subtree enumeration. -/
theorem HNode.self_mem_allNodes {S : Type} (n : HNode S) : n ∈ n.allNodes := by
  cases n with
  | mk h s t i ca ch => simp [HNode.allNodes]

/-- The per-node construction invariants of §4.1: stored history,
classification and info-state are the ones derived from the owned state,
and the children are in bijection with the legal actions (empty at a
terminal node). -/
def NodeOK {S : Type} (g : GameIF S) (responder : Int) (m : HNode S) : Prop :=
  m.history = g.historyString m.state ∧
  m.nodeType = g.stateTypeOf m.state ∧
  m.infoState = infoStateOf g responder m.state ∧
  (m.nodeType ≠ .terminal →
    m.childActions = g.legalActions m.state ∧
    m.children.toList.map (fun p => p.1) = m.childActions) ∧
  (m.nodeType = .terminal → m.childActions = [] ∧ m.children = .nil)

theorem buildChildren_ok {S : Type} (g : GameIF S) (responder : Int)
    (f : S → Option (HNode S))
    (hf : ∀ s c, f s = some c → ∀ m ∈ c.allNodes, NodeOK g responder m) (s : S) :
    ∀ (acts : List Int) (ch : HChildren S), buildChildren g f s acts = some ch →
      ch.toList.map (fun p => p.1) = acts ∧
      ∀ m ∈ HChildren.allNodesC ch, NodeOK g responder m := by
  intro acts
  induction acts with
  | nil =>
    intro ch h
    simp only [buildChildren] at h
    cases h
    simp [HChildren.toList, HChildren.allNodesC]
  | cons a rest ih =>
    intro ch h
    simp only [buildChildren, bind, Option.bind_eq_some, pure,
      Option.some.injEq] at h
    obtain ⟨c, hc, cs, hcs, rfl⟩ := h
    obtain ⟨ihm, ihok⟩ := ih cs hcs
    refine ⟨by simp [HChildren.toList, ihm], ?_⟩
    intro m hm
    simp only [HChildren.allNodesC, List.mem_append] at hm
    rcases hm with hm | hm
    · exact hf _ _ hc m hm
    · exact ihok m hm

theorem buildNode_ok {S : Type} (g : GameIF S) (responder : Int) :
    ∀ (fuel : Nat) (s : S) (n : HNode S), buildNode g responder fuel s = some n →
      ∀ m ∈ n.allNodes, NodeOK g responder m := by
  intro fuel
  induction fuel with
  | zero => intro s n h; simp [buildNode] at h
  | succ fuel ih =>
    intro s n h
    simp only [buildNode] at h
    by_cases ht : g.stateTypeOf s = StateType.terminal
    · rw [if_pos ht] at h
      cases h
      intro m hm
      simp only [HNode.allNodes, HChildren.allNodesC, List.mem_cons,
        List.not_mem_nil, or_false] at hm
      subst hm
      refine ⟨rfl, rfl, rfl, fun hnt => absurd ht ?_, fun _ => ⟨rfl, rfl⟩⟩
      simpa [HNode.nodeType] using hnt
    · rw [if_neg ht] at h
      by_cases he : (g.legalActions s).isEmpty
      · rw [if_pos he] at h; cases h
      · rw [if_neg he] at h
        simp only [bind, Option.bind_eq_some, pure, Option.some.injEq] at h
        obtain ⟨ch, hch, rfl⟩ := h
        obtain ⟨hmap, hok⟩ := buildChildren_ok g responder _ (fun s c hc => ih s c hc) s _ ch hch
        intro m hm
        simp only [HNode.allNodes, List.mem_cons] at hm
        rcases hm with rfl | hm
        · refine ⟨rfl, rfl, rfl, fun _ => ⟨rfl, ?_⟩, fun hterm => absurd hterm ?_⟩
          · simpa [HNode.children, HNode.childActions] using hmap
          · simpa [HNode.nodeType] using ht
        · exact hok m hm

theorem buildTree_ok {S : Type} (g : GameIF S) (responder : Int) (fuel : Nat)
    (s0 : S) (t : HistoryTree S) (h : HistoryTree.build g responder fuel s0 = some t) :
    ∀ m ∈ t.root.allNodes, NodeOK g responder m := by
  simp only [HistoryTree.build, Option.map_eq_some'] at h
  obtain ⟨n, hn, rfl⟩ := h
  exact buildNode_ok g responder fuel s0 n hn

/-- Claim C3: for every node of a built HistoryTree, the stored
info-state string is assigned by node kind (responder decision nodes get
the responder-specific information-state string, other decision nodes
the generic one, chance and terminal nodes their fixed sentinels), the
two sentinels are distinct from each other, and — for the reference
Kuhn tree — distinct from every real (decision-node) information-state
string. -/
theorem claim_C3_infostate_assignment :
    (∀ (S : Type) (g : GameIF S) (responder : Int) (fuel : Nat) (s0 : S)
      (t : HistoryTree S), HistoryTree.build g responder fuel s0 = some t →
      ∀ m ∈ t.root.allNodes,
        (m.nodeType = .decision → g.currentPlayer m.state = responder →
          m.infoState = g.informationStateStringFor m.state responder) ∧
        (m.nodeType = .decision → g.currentPlayer m.state ≠ responder →
          m.infoState = g.informationStateString m.state) ∧
        (m.nodeType = .chance → m.infoState = kChanceNodeInfostateString) ∧
        (m.nodeType = .terminal → m.infoState = kTerminalNodeInfostateString)) ∧
    kChanceNodeInfostateString ≠ kTerminalNodeInfostateString ∧
    (∀ m ∈ kuhnTree.root.allNodes, m.nodeType = .decision →
      m.infoState ≠ kChanceNodeInfostateString ∧
      m.infoState ≠ kTerminalNodeInfostateString) := by
  refine ⟨?_, by decide, by decide⟩
  intro S g responder fuel s0 t ht m hm
  obtain ⟨-, hty, hinfo, -, -⟩ := buildTree_ok g responder fuel s0 t ht m hm
  rw [hty] at *
  refine ⟨?_, ?_, ?_, ?_⟩ <;> intro hcase
  · intro hp
    rw [hinfo, infoStateOf, hcase, if_pos hp]
  · intro hp
    rw [hinfo, infoStateOf, hcase, if_neg hp]
  · rw [hinfo, infoStateOf, hcase]
  · rw [hinfo, infoStateOf, hcase]

/-- Witness for claim C3 at the Kuhn tree: its root is a chance node and
stores the chance sentinel. -/
theorem claim_C3_witness :
    kuhnTree.root.nodeType = StateType.chance ∧
    kuhnTree.root.infoState = kChanceNodeInfostateString := by
  refine ⟨by decide, ?_⟩
  exact (claim_C3_infostate_assignment.1 (List Int) kuhnG 0 kuhnFuel [] kuhnTree
    rfl kuhnTree.root (HNode.self_mem_allNodes _)).2.2.1 (by decide)

/-- Claim C4: for every non-terminal node of a built HistoryTree, the
stored childActions list equals the state reported legalActions
element-for-element in the same order, and the number of child nodes
equals the number of legal actions. -/
theorem claim_C4_children_match_legal_actions :
    ∀ (S : Type) (g : GameIF S) (responder : Int) (fuel : Nat) (s0 : S)
      (t : HistoryTree S), HistoryTree.build g responder fuel s0 = some t →
      ∀ m ∈ t.root.allNodes, m.nodeType ≠ .terminal →
        m.childActions = g.legalActions m.state ∧
        m.children.toList.length = m.childActions.length ∧
        m.childActions.length = (g.legalActions m.state).length := by
  intro S g responder fuel s0 t ht m hm hnt
  obtain ⟨-, -, -, hnonterm, -⟩ := buildTree_ok g responder fuel s0 t ht m hm
  obtain ⟨hca, hmap⟩ := hnonterm hnt
  refine ⟨hca, ?_, by rw [hca]⟩
  calc m.children.toList.length
      = (m.children.toList.map (fun p => p.1)).length := by simp
    _ = m.childActions.length := by rw [hmap]

/-- Witness for claim C4 at the Kuhn root: a chance node whose three
children correspond to the three legal deal actions. -/
theorem claim_C4_witness :
    kuhnTree.root.childActions = kuhnG.legalActions kuhnTree.root.state ∧
    kuhnTree.root.children.toList.length = kuhnTree.root.childActions.length ∧
    kuhnTree.root.childActions.length =
      (kuhnG.legalActions kuhnTree.root.state).length :=
  claim_C4_children_match_legal_actions (List Int) kuhnG 0 kuhnFuel [] kuhnTree
    rfl kuhnTree.root (HNode.self_mem_allNodes _) (by decide)

/-- Claim C5: for every built HistoryTree, numHistories equals the count
of distinct history keys of the enumeration (the keys being distinct per
the spec invariant); every enumerated key is found by byHistory, with
the node storing exactly that key, which is the owned state historyString;
and byHistory of an absent key signals "not found". -/
theorem claim_C5_history_lookup :
    ∀ (S : Type) (g : GameIF S) (responder : Int) (fuel : Nat) (s0 : S)
      (t : HistoryTree S), HistoryTree.build g responder fuel s0 = some t →
      (t.getHistories.Nodup → t.numHistories = t.getHistories.dedup.length) ∧
      (∀ k ∈ t.getHistories, ∃ n, t.getByHistory k = some n ∧
        n.history = k ∧ g.historyString n.state = k) ∧
      (∀ k, k ∉ t.getHistories → t.getByHistory k = none) := by
  intro S g responder fuel s0 t ht
  refine ⟨?_, ?_, ?_⟩
  · intro hnd
    rw [List.dedup_eq_self.mpr hnd]
    simp [HistoryTree.numHistories, HistoryTree.getHistories]
  · intro k hk
    simp only [HistoryTree.getHistories, List.mem_map] at hk
    obtain ⟨m, hm, hmk⟩ := hk
    have hsome : (t.root.allNodes.find? (fun n => n.history == k)).isSome := by
      rw [List.find?_isSome]
      exact ⟨m, hm, by simp [hmk]⟩
    obtain ⟨n, hn⟩ := Option.isSome_iff_exists.mp hsome
    have hpred : n.history = k := by
      have := List.find?_some hn
      simpa using this
    have hmem : n ∈ t.root.allNodes := List.mem_of_find?_eq_some hn
    obtain ⟨hhist, -, -, -, -⟩ := buildTree_ok g responder fuel s0 t ht n hmem
    exact ⟨n, hn, hpred, by rw [← hpred, hhist]⟩
  · intro k hk
    apply List.find?_eq_none.mpr
    intro n hn
    simp only [beq_iff_eq]
    intro hnk
    exact hk (by
      simp only [HistoryTree.getHistories, List.mem_map]
      exact ⟨n, hn, hnk⟩)

/-- Witness for claim C5 at the Kuhn tree: the 58 history keys are
distinct, so numHistories equals the deduplicated key count, and lookup
of an absent key signals "not found". -/
theorem claim_C5_witness :
    kuhnTree.numHistories = kuhnTree.getHistories.dedup.length ∧
    kuhnTree.getByHistory "3, 3" = none := by
  have h := claim_C5_history_lookup (List Int) kuhnG 0 kuhnFuel [] kuhnTree rfl
  exact ⟨h.1 (by decide), h.2.2 "3, 3" (by decide)⟩

/-- Claim C9: building a HistoryTree twice from the same (game, initial
state, responder) inputs is observationally identical: the same result,
hence the same node count, history keys, and per-node classification and
info-state assignment.  In this embedding construction is a pure
function, so determinism is intrinsic. -/
theorem claim_C9_rebuild_identical :
    ∀ (S : Type) (g g2 : GameIF S) (r r2 : Int) (fuel fuel2 : Nat) (s s2 : S),
      g = g2 → r = r2 → fuel = fuel2 → s = s2 →
      HistoryTree.build g r fuel s = HistoryTree.build g2 r2 fuel2 s2 ∧
      (HistoryTree.build g r fuel s).map HistoryTree.numHistories =
        (HistoryTree.build g2 r2 fuel2 s2).map HistoryTree.numHistories ∧
      (HistoryTree.build g r fuel s).map HistoryTree.getHistories =
        (HistoryTree.build g2 r2 fuel2 s2).map HistoryTree.getHistories ∧
      (HistoryTree.build g r fuel s).map
          (fun t => t.root.allNodes.map (fun m => (m.history, m.nodeType, m.infoState))) =
        (HistoryTree.build g2 r2 fuel2 s2).map
          (fun t => t.root.allNodes.map (fun m => (m.history, m.nodeType, m.infoState))) := by
  intro S g g2 r r2 fuel fuel2 s s2 hg hr hf hs
  subst hg; subst hr; subst hf; subst hs
  exact ⟨rfl, rfl, rfl, rfl⟩

/-- Witness for claim C9: two builds of the Kuhn tree for responder 0
agree observationally. -/
theorem claim_C9_witness :
    (HistoryTree.build kuhnG 0 kuhnFuel []).map HistoryTree.numHistories =
      (HistoryTree.build kuhnG 0 kuhnFuel []).map HistoryTree.numHistories :=
  (claim_C9_rebuild_identical (List Int) kuhnG kuhnG 0 0 kuhnFuel kuhnFuel [] []
    rfl rfl rfl rfl).2.1

theorem reaches_inv {S : Type} {g : GameIF S} {responder : Int} {pol : PolicyFn S}
    {n d : HNode S} {w : Frac} (h : Reaches g responder pol n d w) :
    (d = n ∧ w = Frac.one) ∨
    (n.nodeType ≠ .terminal ∧ ∃ a c w2, (a, c) ∈ n.children.toList ∧
      Reaches g responder pol c d w2 ∧
      w = (stepWeight g responder pol n a).mul w2) := by
  cases h with
  | refl n => exact Or.inl ⟨rfl, rfl⟩
  | step hnt hc h => exact Or.inr ⟨hnt, _, _, _, hc, h, rfl⟩

mutual
theorem mem_getSubgameInfoSets_iff {S : Type} (g : GameIF S) (responder : Int)
    (pol : PolicyFn S) (n : HNode S) (q : Frac) (e : String × HNode S × Frac) :
    e ∈ getSubgameInfoSets g responder pol n q ↔
    ∃ d w, Reaches g responder pol n d w ∧ d.nodeType = .decision ∧
      g.currentPlayer d.state = responder ∧ e = (d.infoState, d, q.mul w) := by
  cases n with
  | mk h s t i ca ch =>
    cases t with
    | terminal =>
      simp only [getSubgameInfoSets, List.not_mem_nil, false_iff, not_exists]
      rintro d w ⟨hr, hd, -, -⟩
      rcases reaches_inv hr with ⟨rfl, -⟩ | ⟨hnt, -⟩
      · simp [HNode.nodeType] at hd
      · exact hnt (by simp [HNode.nodeType])
    | chance =>
      simp only [getSubgameInfoSets]
      rw [mem_infoSetsChildren_iff]
      constructor
      · rintro ⟨a, c, hmem, d, w2, hr, hd, hp, rfl⟩
        refine ⟨d, (stepWeight g responder pol (.mk h s .chance i ca ch) a).mul w2,
          Reaches.step (by simp [HNode.nodeType]) (by simpa [HNode.children] using hmem) hr,
          hd, hp, ?_⟩
        simp [stepWeight, HNode.nodeType, HNode.state, Frac.mul_assoc]
      · rintro ⟨d, w, hr, hd, hp, rfl⟩
        rcases reaches_inv hr with ⟨rfl, rfl⟩ | ⟨-, a, c, w2, hmem, hr2, rfl⟩
        · simp [HNode.nodeType] at hd
        · refine ⟨a, c, by simpa [HNode.children] using hmem, d, w2, hr2, hd, hp, ?_⟩
          simp [stepWeight, HNode.nodeType, HNode.state, Frac.mul_assoc]
    | decision =>
      by_cases hp : g.currentPlayer s = responder
      · simp only [getSubgameInfoSets, if_pos hp, List.mem_cons]
        rw [mem_infoSetsChildren_iff]
        constructor
        · rintro (rfl | ⟨a, c, hmem, d, w2, hr, hd, hpd, rfl⟩)
          · exact ⟨.mk h s .decision i ca ch, Frac.one, Reaches.refl _,
              by simp [HNode.nodeType], by simpa [HNode.state] using hp,
              by simp [HNode.infoState, Frac.mul_one]⟩
          · refine ⟨d, (stepWeight g responder pol (.mk h s .decision i ca ch) a).mul w2,
              Reaches.step (by simp [HNode.nodeType]) (by simpa [HNode.children] using hmem) hr,
              hd, hpd, ?_⟩
            simp [stepWeight, HNode.nodeType, HNode.state, if_pos hp, Frac.mul_assoc]
        · rintro ⟨d, w, hr, hd, hpd, rfl⟩
          rcases reaches_inv hr with ⟨rfl, rfl⟩ | ⟨-, a, c, w2, hmem, hr2, rfl⟩
          · left
            simp [HNode.infoState, Frac.mul_one]
          · right
            refine ⟨a, c, by simpa [HNode.children] using hmem, d, w2, hr2, hd, hpd, ?_⟩
            simp [stepWeight, HNode.nodeType, HNode.state, if_pos hp, Frac.mul_assoc]
      · simp only [getSubgameInfoSets, if_neg hp]
        rw [mem_infoSetsChildren_iff]
        constructor
        · rintro ⟨a, c, hmem, d, w2, hr, hd, hpd, rfl⟩
          refine ⟨d, (stepWeight g responder pol (.mk h s .decision i ca ch) a).mul w2,
            Reaches.step (by simp [HNode.nodeType]) (by simpa [HNode.children] using hmem) hr,
            hd, hpd, ?_⟩
          simp [stepWeight, HNode.nodeType, HNode.state, if_neg hp, Frac.mul_assoc]
        · rintro ⟨d, w, hr, hd, hpd, rfl⟩
          rcases reaches_inv hr with ⟨rfl, rfl⟩ | ⟨-, a, c, w2, hmem, hr2, rfl⟩
          · exact absurd (by simpa [HNode.state] using hpd) hp
          · refine ⟨a, c, by simpa [HNode.children] using hmem, d, w2, hr2, hd, hpd, ?_⟩
            simp [stepWeight, HNode.nodeType, HNode.state, if_neg hp, Frac.mul_assoc]
theorem mem_infoSetsChildren_iff {S : Type} (g : GameIF S) (responder : Int)
    (pol : PolicyFn S) (ch : HChildren S) (w : Int → Frac) (q : Frac)
    (e : String × HNode S × Frac) :
    e ∈ infoSetsChildren g responder pol w ch q ↔
    ∃ a c, (a, c) ∈ ch.toList ∧ ∃ d w2, Reaches g responder pol c d w2 ∧
      d.nodeType = .decision ∧ g.currentPlayer d.state = responder ∧
      e = (d.infoState, d, (q.mul (w a)).mul w2) := by
  cases ch with
  | nil => simp [infoSetsChildren, HChildren.toList]
  | cons a c rest =>
    simp only [infoSetsChildren, List.mem_append, HChildren.toList, List.mem_cons]
    rw [mem_getSubgameInfoSets_iff, mem_infoSetsChildren_iff]
    constructor
    · rintro (⟨d, w2, hr, hd, hp, rfl⟩ | ⟨a2, c2, hmem, d, w2, hr, hd, hp, rfl⟩)
      · exact ⟨a, c, Or.inl rfl, d, w2, hr, hd, hp, rfl⟩
      · exact ⟨a2, c2, Or.inr hmem, d, w2, hr, hd, hp, rfl⟩
    · rintro ⟨a2, c2, hmem, d, w2, hr, hd, hp, rfl⟩
      rcases hmem with heq | hmem
      · injection heq with h1 h2
        subst h1
        subst h2
        exact Or.inl ⟨d, w2, hr, hd, hp, rfl⟩
      · exact Or.inr ⟨a2, c2, hmem, d, w2, hr, hd, hp, rfl⟩
end

/-- Claim C1: the counterfactual reach probabilities computed by
GetAllInfoSets are exactly those of the single recursive pass of §4.3:
starting at the root with reach 1, keeping the reach unchanged across
the responder decisions, multiplying the opponent policy
probability at other players decisions and the game-reported outcome
probability at chance nodes, stopping at terminal nodes, and recording
exactly the responder decision nodes. -/
theorem claim_C1_infoset_pass_characterization :
    ∀ (S : Type) (g : GameIF S) (responder : Int) (pol : PolicyFn S)
      (t : HistoryTree S) (e : String × HNode S × Frac),
      e ∈ getAllInfoSets g responder pol t ↔
      ∃ d w, Reaches g responder pol t.root d w ∧ d.nodeType = .decision ∧
        g.currentPlayer d.state = responder ∧ e = (d.infoState, d, w) := by
  intro S g responder pol t e
  rw [getAllInfoSets, mem_getSubgameInfoSets_iff]
  constructor
  · rintro ⟨d, w, hr, hd, hp, rfl⟩
    exact ⟨d, w, hr, hd, hp, by rw [Frac.one_mul]⟩
  · rintro ⟨d, w, hr, hd, hp, rfl⟩
    exact ⟨d, w, hr, hd, hp, by rw [Frac.one_mul]⟩

mutual
theorem reaches_of_mem_allNodes {S : Type} (g : GameIF S) (responder : Int)
    (pol : PolicyFn S) (n : HNode S)
    (hterm : ∀ m2 ∈ n.allNodes, m2.nodeType = .terminal →
      m2.children = HChildren.nil) :
    ∀ m ∈ n.allNodes, ∃ w, Reaches g responder pol n m w := by
  cases n with
  | mk h s t i ca ch =>
    intro m hm
    rcases List.mem_cons.mp (by simpa [HNode.allNodes] using hm) with rfl | hm2
    · exact ⟨Frac.one, Reaches.refl _⟩
    · have hterm2 : ∀ m2 ∈ HChildren.allNodesC ch, m2.nodeType = .terminal →
          m2.children = HChildren.nil := by
        intro m2 hm3 ht2
        exact hterm m2 (by simp [HNode.allNodes, hm3]) ht2
      obtain ⟨a, c, w, hc, hr⟩ :=
        reaches_of_mem_allNodesC g responder pol ch hterm2 m hm2
      have hnt : (HNode.mk h s t i ca ch).nodeType ≠ .terminal := by
        intro heq
        have hnil := hterm (HNode.mk h s t i ca ch)
          (HNode.self_mem_allNodes _) heq
        simp only [HNode.children] at hnil
        subst hnil
        simp [HChildren.allNodesC] at hm2
      exact ⟨(stepWeight g responder pol (HNode.mk h s t i ca ch) a).mul w,
        Reaches.step hnt (by simpa [HNode.children] using hc) hr⟩
theorem reaches_of_mem_allNodesC {S : Type} (g : GameIF S) (responder : Int)
    (pol : PolicyFn S) (ch : HChildren S)
    (hterm : ∀ m2 ∈ HChildren.allNodesC ch, m2.nodeType = .terminal →
      m2.children = HChildren.nil) :
    ∀ m ∈ HChildren.allNodesC ch,
      ∃ a c w, (a, c) ∈ ch.toList ∧ Reaches g responder pol c m w := by
  cases ch with
  | nil => simp [HChildren.allNodesC]
  | cons a c rest =>
    intro m hm
    rcases List.mem_append.mp (by simpa [HChildren.allNodesC] using hm) with hm2 | hm2
    · obtain ⟨w, hr⟩ := reaches_of_mem_allNodes g responder pol c
        (fun m2 hm3 => hterm m2 (by simp [HChildren.allNodesC, hm3])) m hm2
      exact ⟨a, c, w, by simp [HChildren.toList], hr⟩
    · obtain ⟨a2, c2, w, hc2, hr⟩ := reaches_of_mem_allNodesC g responder pol rest
        (fun m2 hm3 => hterm m2 (by simp [HChildren.allNodesC, hm3])) m hm2
      exact ⟨a2, c2, w, by simp [HChildren.toList, hc2], hr⟩
end

/-- Claim C6: every entry of the InfoSet map is a decision node whose
acting player is the responder, stored under the node own info-state
string; conversely, every decision node of a built tree whose actor is
the responder has its info-state string among the map keys. -/
theorem claim_C6_entries_exactly_responder_nodes :
    (∀ (S : Type) (g : GameIF S) (responder : Int) (pol : PolicyFn S)
      (t : HistoryTree S) (e : String × HNode S × Frac),
      e ∈ getAllInfoSets g responder pol t →
      e.1 = e.2.1.infoState ∧ e.2.1.nodeType = .decision ∧
      g.currentPlayer e.2.1.state = responder) ∧
    (∀ (S : Type) (g : GameIF S) (responder : Int) (pol : PolicyFn S)
      (fuel : Nat) (s0 : S) (t : HistoryTree S),
      HistoryTree.build g responder fuel s0 = some t →
      ∀ m ∈ t.root.allNodes, m.nodeType = .decision →
        g.currentPlayer m.state = responder →
        m.infoState ∈ infoSetKeys (getAllInfoSets g responder pol t)) := by
  constructor
  · intro S g responder pol t e he
    rw [getAllInfoSets, mem_getSubgameInfoSets_iff] at he
    obtain ⟨d, w, -, hd, hp, rfl⟩ := he
    exact ⟨rfl, hd, hp⟩
  · intro S g responder pol fuel s0 t ht m hm hdec hp
    have hok := buildTree_ok g responder fuel s0 t ht
    have hterm : ∀ m2 ∈ t.root.allNodes, m2.nodeType = .terminal →
        m2.children = HChildren.nil := by
      intro m2 hm2 ht2
      exact ((hok m2 hm2).2.2.2.2 ht2).2
    obtain ⟨w, hr⟩ := reaches_of_mem_allNodes g responder pol t.root hterm m hm
    have hmem : (m.infoState, m, Frac.one.mul w) ∈ getAllInfoSets g responder pol t := by
      rw [getAllInfoSets, mem_getSubgameInfoSets_iff]
      exact ⟨m, w, hr, hdec, hp, rfl⟩
    simp only [infoSetKeys, List.mem_map]
    exact ⟨_, hmem, rfl⟩

/-- The responder-0 decision node of the Kuhn tree reached by the deal
history "0, 1". -/
def kuhnNode01 : HNode (List Int) :=
  (kuhnTree.getByHistory "0, 1").getD emptyTree.root

/-- Witness for claim C6 at the Kuhn tree: the responder decision node
with history "0, 1" has its info-state string among the map keys. -/
theorem claim_C6_witness :
    kuhnNode01.infoState ∈ infoSetKeys kuhnUniformEntries := by
  have hmem : kuhnNode01 ∈ kuhnTree.root.allNodes :=
    List.mem_of_find?_eq_some
      (show kuhnTree.root.allNodes.find? (fun n => n.history == "0, 1") =
        some kuhnNode01 from rfl)
  exact claim_C6_entries_exactly_responder_nodes.2 (List Int) kuhnG 0
    (uniformPolicyFn kuhnG) kuhnFuel [] kuhnTree rfl kuhnNode01 hmem
    (by decide) (by decide)

/-- Claim C2: the counterfactual reach probabilities for Kuhn poker with
responder 0: under the uniform opponent policy the node with history
"0, 1" has probability 1/6 (the literal 0.166666667 up to 1e-9) and the
node with history "0, 1, 0, 1" has 1/12 (the literal 0.083333333 up to
1e-9); under the first-listed-action opponent policy the node with
history "0, 1, 0, 1" has probability 0. -/
theorem claim_C2_kuhn_counterfactual_values :
    (findProbByHistory kuhnUniformEntries "0, 1").map Frac.val = some (1/6) ∧
    (findProbByHistory kuhnUniformEntries "0, 1, 0, 1").map Frac.val = some (1/12) ∧
    (findProbByHistory kuhnFirstActionEntries "0, 1, 0, 1").map Frac.val = some 0 ∧
    |(1 : ℚ)/6 - 0.166666667| < 1/1000000000 ∧
    |(1 : ℚ)/12 - 0.083333333| < 1/1000000000 := by
  have h1 : findProbByHistory kuhnUniformEntries "0, 1" = some ⟨1, 6⟩ := by decide
  have h2 : findProbByHistory kuhnUniformEntries "0, 1, 0, 1" = some ⟨1, 12⟩ := by
    decide
  have h3 : findProbByHistory kuhnFirstActionEntries "0, 1, 0, 1" = some ⟨0, 6⟩ := by
    decide
  refine ⟨?_, ?_, ?_, ?_, ?_⟩
  · rw [h1]
    simp [Frac.val]
  · rw [h2]
    simp [Frac.val]
  · rw [h3]
    simp [Frac.val]
  · rw [abs_lt]
    constructor <;> norm_num
  · rw [abs_lt]
    constructor <;> norm_num

/-- Counterexample for claim C7: in the Kuhn InfoSet map for responder 0
under the uniform policy, the empty-string key has zero entries, not
exactly one (the root is a chance node, and only responder decision
nodes are recorded). -/
theorem claim_C7_counterexample :
    countForKey kuhnUniformEntries "" = 0 ∧
    countForKey kuhnUniformEntries "" ≠ 1 := by
  exact ⟨by decide, by decide⟩

/-- Claim C7 as amended: the map holds no entry under the empty-string
key, and every key it does hold has exactly two entries. -/
theorem claim_C7_amended_two_entries_per_key :
    countForKey kuhnUniformEntries "" = 0 ∧
    ∀ k ∈ infoSetKeys kuhnUniformEntries, countForKey kuhnUniformEntries k = 2 := by
  exact ⟨by decide, by decide⟩

/-- Witness for claim C7 at the key "0" (the responder-0 info state
after being dealt card 0): it holds exactly two entries. -/
theorem claim_C7_witness :
    "0" ∈ infoSetKeys kuhnUniformEntries ∧
    countForKey kuhnUniformEntries "0" = 2 :=
  ⟨by decide, claim_C7_amended_two_entries_per_key.2 "0" (by decide)⟩

/-- The argument payload handed to a Python-side override: the pybind11
machinery forwards either a `State`, an info-state string, or a
state-and-player pair, depending on the C++ overload invoked. -/
inductive PyArg (S : Type) where
  | state (s : S)
  | infoState (i : String)
  | statePlayer (s : S) (p : Int)

/-- The base-class `Policy` implementations that
`PYBIND11_OVERRIDE_NAME` falls back to (one per C++ overload of
`python_policy.cc`); the base class itself is outside the available
sources, so it is kept abstract. -/
structure PolicyBase (S : Type) where
  getStatePolicyAsParallelVectorsState : S → List Int × List ℚ
  getStatePolicyAsParallelVectorsInfostate : String → List Int × List ℚ
  getStatePolicyAsMapState : S → List (Int × ℚ)
  getStatePolicyAsMapInfostate : String → List (Int × ℚ)
  getStatePolicyState : S → List (Int × ℚ)
  getStatePolicyStatePlayer : S → Int → List (Int × ℚ)
  getStatePolicyInfostate : String → List (Int × ℚ)
  serialize : Int → String → String

/-- The optional Python-side overrides of a wrapped policy object, one
field per designated Python method name used in `python_policy.cc`:
"get_state_policy_as_parallel_vectors", "action_probabilities",
"get_state_policy" and "serialize". -/
structure PyOverrides (S : Type) where
  getStatePolicyAsParallelVectorsOv : Option (PyArg S → List Int × List ℚ)
  actionProbabilitiesOv : Option (PyArg S → List (Int × ℚ))
  getStatePolicyOv : Option (PyArg S → List (Int × ℚ))
  serializeOv : Option (Int → String → String)

/-- The trampoline `PyPolicy` of `python_policy.cc`: a wrapped Python
object (its overrides) over the base `Policy`. -/
structure PyPolicy (S : Type) where
  overrides : PyOverrides S
  base : PolicyBase S

/-- The override set of a Python object that overrides nothing. -/
def PyOverrides.noOverrides (S : Type) : PyOverrides S := ⟨none, none, none, none⟩

/-- `PyPolicy::GetStatePolicyAsParallelVectors(const State&)`
(python_policy.cc:13-24): `PYBIND11_OVERRIDE_NAME` under the Python name
"get_state_policy_as_parallel_vectors"; falls back to the base class. -/
def PyPolicy.getStatePolicyAsParallelVectorsState {S : Type} (p : PyPolicy S)
    (s : S) : List Int × List ℚ :=
  match p.overrides.getStatePolicyAsParallelVectorsOv with
  | some f => f (.state s)
  | none => p.base.getStatePolicyAsParallelVectorsState s

/-- `PyPolicy::GetStatePolicyAsParallelVectors(std::string_view)`
(python_policy.cc:25-36): the same Python name
"get_state_policy_as_parallel_vectors"; falls back to the base class. -/
def PyPolicy.getStatePolicyAsParallelVectorsInfostate {S : Type} (p : PyPolicy S)
    (i : String) : List Int × List ℚ :=
  match p.overrides.getStatePolicyAsParallelVectorsOv with
  | some f => f (.infoState i)
  | none => p.base.getStatePolicyAsParallelVectorsInfostate i

/-- `PyPolicy::GetStatePolicyAsMap(const State&)` (python_policy.cc:37-46):
`PYBIND11_OVERRIDE_NAME` under the Python name "action_probabilities". -/
def PyPolicy.getStatePolicyAsMapState {S : Type} (p : PyPolicy S) (s : S) :
    List (Int × ℚ) :=
  match p.overrides.actionProbabilitiesOv with
  | some f => f (.state s)
  | none => p.base.getStatePolicyAsMapState s

/-- `PyPolicy::GetStatePolicyAsMap(std::string_view)`
(python_policy.cc:47-57): the same Python name "action_probabilities". -/
def PyPolicy.getStatePolicyAsMapInfostate {S : Type} (p : PyPolicy S)
    (i : String) : List (Int × ℚ) :=
  match p.overrides.actionProbabilitiesOv with
  | some f => f (.infoState i)
  | none => p.base.getStatePolicyAsMapInfostate i

/-- `PyPolicy::GetStatePolicy(const State&)` (python_policy.cc:58-61):
`PYBIND11_OVERRIDE_NAME` under the Python name "get_state_policy". -/
def PyPolicy.getStatePolicyState {S : Type} (p : PyPolicy S) (s : S) :
    List (Int × ℚ) :=
  match p.overrides.getStatePolicyOv with
  | some f => f (.state s)
  | none => p.base.getStatePolicyState s

/-- `PyPolicy::GetStatePolicy(const State&, Player)`
(python_policy.cc:62-67): the same Python name "get_state_policy". -/
def PyPolicy.getStatePolicyStatePlayer {S : Type} (p : PyPolicy S) (s : S)
    (pl : Int) : List (Int × ℚ) :=
  match p.overrides.getStatePolicyOv with
  | some f => f (.statePlayer s pl)
  | none => p.base.getStatePolicyStatePlayer s pl

/-- `PyPolicy::GetStatePolicy(std::string_view)` (python_policy.cc:68-71):
the same Python name "get_state_policy". -/
def PyPolicy.getStatePolicyInfostate {S : Type} (p : PyPolicy S) (i : String) :
    List (Int × ℚ) :=
  match p.overrides.getStatePolicyOv with
  | some f => f (.infoState i)
  | none => p.base.getStatePolicyInfostate i

/-- `PyPolicy::Serialize(int, std::string)` (python_policy.cc:72-75):
`PYBIND11_OVERRIDE_NAME` under the Python name "serialize". -/
def PyPolicy.serializePolicy {S : Type} (p : PyPolicy S) (dp : Int)
    (delim : String) : String :=
  match p.overrides.serializeOv with
  | some f => f dp delim
  | none => p.base.serialize dp delim

/-- Claim C10: a `PyPolicy` wrapping a Python object with no overrides
is observationally equivalent to the base `Policy` on every method, and
the State-keyed and info-state-string-keyed overloads of each method
dispatch to one single Python method name (the same override function
receives both call shapes). -/
theorem claim_C10_pypolicy_dispatch :
    (∀ (S : Type) (b : PolicyBase S) (s : S) (i : String) (pl dp : Int)
      (delim : String),
      (PyPolicy.mk (PyOverrides.noOverrides S) b).getStatePolicyAsParallelVectorsState s =
        b.getStatePolicyAsParallelVectorsState s ∧
      (PyPolicy.mk (PyOverrides.noOverrides S) b).getStatePolicyAsParallelVectorsInfostate i =
        b.getStatePolicyAsParallelVectorsInfostate i ∧
      (PyPolicy.mk (PyOverrides.noOverrides S) b).getStatePolicyAsMapState s =
        b.getStatePolicyAsMapState s ∧
      (PyPolicy.mk (PyOverrides.noOverrides S) b).getStatePolicyAsMapInfostate i =
        b.getStatePolicyAsMapInfostate i ∧
      (PyPolicy.mk (PyOverrides.noOverrides S) b).getStatePolicyState s =
        b.getStatePolicyState s ∧
      (PyPolicy.mk (PyOverrides.noOverrides S) b).getStatePolicyStatePlayer s pl =
        b.getStatePolicyStatePlayer s pl ∧
      (PyPolicy.mk (PyOverrides.noOverrides S) b).getStatePolicyInfostate i =
        b.getStatePolicyInfostate i ∧
      (PyPolicy.mk (PyOverrides.noOverrides S) b).serializePolicy dp delim =
        b.serialize dp delim) ∧
    (∀ (S : Type) (b : PolicyBase S) (ov : PyOverrides S) (s : S) (i : String),
      (∀ f, ov.getStatePolicyAsParallelVectorsOv = some f →
        (PyPolicy.mk ov b).getStatePolicyAsParallelVectorsState s = f (.state s) ∧
        (PyPolicy.mk ov b).getStatePolicyAsParallelVectorsInfostate i = f (.infoState i)) ∧
      (∀ f, ov.actionProbabilitiesOv = some f →
        (PyPolicy.mk ov b).getStatePolicyAsMapState s = f (.state s) ∧
        (PyPolicy.mk ov b).getStatePolicyAsMapInfostate i = f (.infoState i)) ∧
      (∀ f, ov.getStatePolicyOv = some f →
        (PyPolicy.mk ov b).getStatePolicyState s = f (.state s) ∧
        (PyPolicy.mk ov b).getStatePolicyInfostate i = f (.infoState i))) := by
  constructor
  · intro S b s i pl dp delim
    refine ⟨rfl, rfl, rfl, rfl, rfl, rfl, rfl, rfl⟩
  · intro S b ov s i
    refine ⟨?_, ?_, ?_⟩ <;> intro f hf <;>
      constructor <;>
      simp [PyPolicy.getStatePolicyAsParallelVectorsState,
        PyPolicy.getStatePolicyAsParallelVectorsInfostate,
        PyPolicy.getStatePolicyAsMapState, PyPolicy.getStatePolicyAsMapInfostate,
        PyPolicy.getStatePolicyState, PyPolicy.getStatePolicyInfostate, hf]

/-- A concrete base policy over the unit state type, used to witness
claim C10. -/
def trivialBase : PolicyBase Unit :=
  ⟨fun _ => ([], []), fun _ => ([], []), fun _ => [], fun _ => [],
    fun _ => [], fun _ _ => [], fun _ => [], fun _ _ => ""⟩

/-- Witness for claim C10: with no overrides the wrapped policy agrees
with the base on a concrete call, and a concrete "action_probabilities"
override is reached by both overload shapes. -/
theorem claim_C10_witness :
    (PyPolicy.mk (PyOverrides.noOverrides Unit) trivialBase).getStatePolicyAsMapState () =
      trivialBase.getStatePolicyAsMapState () ∧
    (PyPolicy.mk ⟨none, some (fun _ => [((0 : Int), (1 : ℚ))]), none, none⟩
      trivialBase).getStatePolicyAsMapState () = [(0, 1)] ∧
    (PyPolicy.mk ⟨none, some (fun _ => [((0 : Int), (1 : ℚ))]), none, none⟩
      trivialBase).getStatePolicyAsMapInfostate "x" = [(0, 1)] := by
  refine ⟨?_, ?_, ?_⟩
  · exact (claim_C10_pypolicy_dispatch.1 Unit trivialBase () "x" 0 0 "").2.2.1
  · exact ((claim_C10_pypolicy_dispatch.2 Unit trivialBase
      ⟨none, some (fun _ => [((0 : Int), (1 : ℚ))]), none, none⟩ () "x").2.1
      (fun _ => [((0 : Int), (1 : ℚ))]) rfl).1
  · exact ((claim_C10_pypolicy_dispatch.2 Unit trivialBase
      ⟨none, some (fun _ => [((0 : Int), (1 : ℚ))]), none, none⟩ () "x").2.1
      (fun _ => [((0 : Int), (1 : ℚ))]) rfl).2

/-- The spec-modelled Kuhn tree has exactly 58 nodes, matching the
scale property the spec states for the small poker-like reference game
(responder 0). -/
theorem kuhn_tree_has_58_histories : kuhnTree.numHistories = 58 := by decide

/-- Building the Kuhn tree for responder 1 also yields exactly 58
nodes. -/
theorem kuhn_tree_responder1_has_58_histories :
    (HistoryTree.build kuhnG 1 kuhnFuel []).map HistoryTree.numHistories =
      some 58 := by decide

/-- A placeholder InfoSet entry used only as an `Option.getD` default. -/
def dummyEntry : String × HNode (List Int) × Frac := ("", emptyTree.root, Frac.zero)

/-- Witness for claim C1 at the Kuhn tree: the recorded entry under key
"0" is reached from the root by the weighted descent relation, ends at a
responder decision node, and carries exactly the accumulated weight. -/
theorem claim_C1_witness :
    ∃ d w, Reaches kuhnG 0 (uniformPolicyFn kuhnG) kuhnTree.root d w ∧
      d.nodeType = StateType.decision ∧ kuhnG.currentPlayer d.state = 0 ∧
      (kuhnUniformEntries.find? (fun e => e.1 == "0")).getD dummyEntry =
        (d.infoState, d, w) := by
  have hf : kuhnUniformEntries.find? (fun e => e.1 == "0") =
      some ((kuhnUniformEntries.find? (fun e => e.1 == "0")).getD dummyEntry) := rfl
  have hmem : (kuhnUniformEntries.find? (fun e => e.1 == "0")).getD dummyEntry ∈
      kuhnUniformEntries := List.mem_of_find?_eq_some hf
  exact (claim_C1_infoset_pass_characterization (List Int) kuhnG 0
    (uniformPolicyFn kuhnG) kuhnTree
    ((kuhnUniformEntries.find? (fun e => e.1 == "0")).getD dummyEntry)).mp hmem
